import Mathlib

/-!
Shallow embedding of the easy-vibe Raycast extension (version checker /
updater for AI CLI tools) and proofs about it.

Sources embedded:
  - the multi-tool command (tools table, `compareVersions`, `extractSemver`,
    `getInstalledVersionForCommand`, `getLatestVersionForPackage`,
    `updateClaude`, `updateViaNpmGlobal`, `updateAllOutdatedTools`);
  - the single-tool command (`getLatestVersion` with its npm/curl/https
    fallback chain);
  - the settings command (`loadSettings` and its merge over defaults).

External effects are inputs: a shell-execution environment maps the full
`execAsync` command string to either a thrown error (`Except.error`) or a
`(stdout, stderr)` pair; the one direct `https.get` is an optional
`(statusCode, body)` response; `LocalStorage.getItem` is an
`Except String (Option String)`.  Each embedded operation also returns the
ordered trace of external calls it made, so theorems can speak about which
probes ran and in which order.  JavaScript string builtins used by the code
(`trim`, `split("\n")`, `startsWith`, `replace(/"/g,..)`) and `JSON.parse`
are re-implemented below over `List Char` so that every definition reduces
inside the kernel.
-/

/-- Literal left-brace character (kept out of string literals). -/
def lbrace : Char := Char.ofNat 123

/-- Literal right-brace character. -/
def rbrace : Char := Char.ofNat 125

/-- Whitespace for JavaScript's `String.prototype.trim` (ASCII part: space,
tab, LF, CR, VT, FF; the code only ever meets these). -/
def isJsWs (c : Char) : Bool :=
  c = ' ' || c = '\t' || c = '\n' || c = '\r' || c = Char.ofNat 11 || c = Char.ofNat 12

/-- JavaScript `s.trim()`. -/
def jsTrim (s : String) : String :=
  ⟨((s.data.dropWhile isJsWs).reverse.dropWhile isJsWs).reverse⟩

/-- JavaScript `s.split("\n")` over a character list. -/
def splitLines : List Char → List (List Char)
  | [] => [[]]
  | c :: rest =>
    let r := splitLines rest
    if c = '\n' then [] :: r
    else
      match r with
      | h :: t => (c :: h) :: t
      | [] => [[c]]

/-- Last element of a list with a default. -/
def lastD : List α → α → α
  | [], d => d
  | [x], _ => x
  | _ :: x :: xs, d => lastD (x :: xs) d

/-- `text.split("\n").slice(-1)[0]` from the update toasts. -/
def lastLineOf (text : String) : String :=
  ⟨lastD (splitLines text.data) []⟩

/-- List-level prefix test, JavaScript `s.startsWith(p)`. -/
def startsWithL : List Char → List Char → Bool
  | _, [] => true
  | [], _ :: _ => false
  | c :: cs, p :: ps => c = p && startsWithL cs ps

/-- JavaScript `s.startsWith(p)`. -/
def jsStartsWith (s p : String) : Bool := startsWithL s.data p.data

/-- `command.replace(/"/g, '\\"')` from `runInLoginShell`. -/
def escapeQuotes : List Char → List Char
  | [] => []
  | c :: cs => if c = '"' then '\\' :: '"' :: escapeQuotes cs else c :: escapeQuotes cs

/-- Quote-escape a command for double-quote wrapping. -/
def quoteCmd (c : String) : String := ⟨escapeQuotes c.data⟩

/-! ## JSON values and `JSON.parse`

`JSON.parse` is a JavaScript builtin; the code relies on it for registry
responses and the persisted settings blob.  Numbers are kept as their raw
text (no numeric claim depends on their value). -/

/-- JSON values as `JSON.parse` produces them. -/
inductive Json where
  | null : Json
  | bool : Bool → Json
  | num : String → Json
  | str : String → Json
  | arr : List Json → Json
  | obj : List (String × Json) → Json

/-- JSON whitespace. -/
def isJsonWs (c : Char) : Bool := c = ' ' || c = '\t' || c = '\n' || c = '\r'

/-- Skip JSON whitespace. -/
def skipWs (cs : List Char) : List Char := cs.dropWhile isJsonWs

/-- Value of one hex digit. -/
def hexVal (c : Char) : Option Nat :=
  if c.isDigit then some (c.toNat - 48)
  else if 'a' ≤ c ∧ c ≤ 'f' then some (c.toNat - 87)
  else if 'A' ≤ c ∧ c ≤ 'F' then some (c.toNat - 55)
  else none

/-- Single-character JSON string escapes. -/
def escChar (c : Char) : Option Char :=
  if c = '"' then some '"'
  else if c = '\\' then some '\\'
  else if c = '/' then some '/'
  else if c = 'b' then some (Char.ofNat 8)
  else if c = 'f' then some (Char.ofNat 12)
  else if c = 'n' then some '\n'
  else if c = 'r' then some '\r'
  else if c = 't' then some '\t'
  else none

/-- Parse the characters of a JSON string literal after its opening quote;
returns the decoded characters and the input after the closing quote. -/
def parseStrChars : List Char → Option (List Char × List Char)
  | [] => none
  | c :: r =>
    if c = '"' then some ([], r)
    else if c = '\\' then
      match r with
      | [] => none
      | e :: r2 =>
        if e = 'u' then
          match r2 with
          | h1 :: h2 :: h3 :: h4 :: r3 =>
            match hexVal h1, hexVal h2, hexVal h3, hexVal h4 with
            | some a, some b, some c3, some d =>
              (parseStrChars r3).map fun p => (Char.ofNat (((a * 16 + b) * 16 + c3) * 16 + d) :: p.1, p.2)
            | _, _, _, _ => none
          | _ => none
        else
          match escChar e with
          | some ec => (parseStrChars r2).map fun p => (ec :: p.1, p.2)
          | none => none
    else (parseStrChars r).map fun p => (c :: p.1, p.2)

/-- Characters that may continue a JSON number (kept raw). -/
def numChar (c : Char) : Bool :=
  c.isDigit || c = '-' || c = '+' || c = '.' || c = 'e' || c = 'E'

mutual

/-- Parse one JSON value (fuel-bounded recursion). -/
def parseVal (fuel : Nat) (cs : List Char) : Option (Json × List Char) :=
  match fuel with
  | 0 => none
  | fuel' + 1 =>
    match skipWs cs with
    | [] => none
    | c :: r =>
      if c = 'n' then
        match r with
        | 'u' :: 'l' :: 'l' :: r2 => some (Json.null, r2)
        | _ => none
      else if c = 't' then
        match r with
        | 'r' :: 'u' :: 'e' :: r2 => some (Json.bool true, r2)
        | _ => none
      else if c = 'f' then
        match r with
        | 'a' :: 'l' :: 's' :: 'e' :: r2 => some (Json.bool false, r2)
        | _ => none
      else if c = '"' then
        (parseStrChars r).map fun p => (Json.str ⟨p.1⟩, p.2)
      else if c = lbrace then
        match skipWs r with
        | [] => none
        | c2 :: r2 =>
          if c2 = rbrace then some (Json.obj [], r2)
          else
            (parseMembersRest fuel' (skipWs r)).map fun p => (Json.obj p.1, p.2)
      else if c = '[' then
        match skipWs r with
        | [] => none
        | c2 :: r2 =>
          if c2 = ']' then some (Json.arr [], r2)
          else
            (parseItemsRest fuel' (skipWs r)).map fun p => (Json.arr p.1, p.2)
      else if c.isDigit || c = '-' then
        some (Json.num ⟨(c :: r).takeWhile numChar⟩, (c :: r).dropWhile numChar)
      else none

/-- Parse the members of a JSON object, positioned at a key. -/
def parseMembersRest (fuel : Nat) (cs : List Char) : Option (List (String × Json) × List Char) :=
  match fuel with
  | 0 => none
  | fuel' + 1 =>
    match cs with
    | '"' :: r =>
      match parseStrChars r with
      | none => none
      | some (key, r2) =>
        match skipWs r2 with
        | ':' :: r3 =>
          match parseVal fuel' r3 with
          | none => none
          | some (v, r4) =>
            match skipWs r4 with
            | ',' :: r5 =>
              match parseMembersRest fuel' (skipWs r5) with
              | none => none
              | some (kvs, r6) => some ((⟨key⟩, v) :: kvs, r6)
            | c2 :: r5 => if c2 = rbrace then some ([(⟨key⟩, v)], r5) else none
            | [] => none
        | _ => none
    | _ => none

/-- Parse the items of a JSON array, positioned at a value. -/
def parseItemsRest (fuel : Nat) (cs : List Char) : Option (List Json × List Char) :=
  match fuel with
  | 0 => none
  | fuel' + 1 =>
    match parseVal fuel' cs with
    | none => none
    | some (v, r) =>
      match skipWs r with
      | ',' :: r2 =>
        match parseItemsRest fuel' (skipWs r2) with
        | none => none
        | some (vs, r3) => some (v :: vs, r3)
      | ']' :: r2 => some ([v], r2)
      | _ => none

end

/-- `JSON.parse`: `none` models a thrown `SyntaxError`. -/
def jsonParse (s : String) : Option Json :=
  match parseVal (s.length + 1) s.data with
  | some (v, rest) => if skipWs rest = [] then some v else none
  | none => none

/-- Property access `o[key]` on a parsed JSON value: the last binding wins,
as `JSON.parse` keeps the last duplicate key; `none` on non-objects
(`undefined` in JavaScript). -/
def lookupLast : List (String × Json) → String → Option Json
  | [], _ => none
  | (k, v) :: rest, key =>
    match lookupLast rest key with
    | some r => some r
    | none => if k = key then some v else none

/-- `parsed.version`-style field access. -/
def jGet : Json → String → Option Json
  | Json.obj kvs, key => lookupLast kvs key
  | _, _ => none

/-! ## `extractSemver`

The source is `text.match(/\d+\.\d+\.\d+(?:[.-][a-zA-Z0-9]+)?/)`.  For this
pattern the JavaScript engine's leftmost-then-greedy search never needs to
backtrack (`\d+` cannot shorten to expose a literal `.`, and the optional
tag group either matches maximally or not at all), so it is embedded as a
deterministic greedy matcher tried at each start position from the left. -/

/-- `\d` of the regex (ASCII digits). -/
def isDig (c : Char) : Bool := c.isDigit

/-- `[a-zA-Z0-9]` of the regex. -/
def isAlnumA (c : Char) : Bool := c.isAlpha || c.isDigit

/-- Greedy `\d+` at the head: the (nonempty) digit run and the rest. -/
def eatDigits (cs : List Char) : Option (List Char × List Char) :=
  if cs.takeWhile isDig = [] then none
  else some (cs.takeWhile isDig, cs.dropWhile isDig)

/-- Literal `\.` of the regex. -/
def eatDot : List Char → Option (List Char)
  | [] => none
  | c :: r => if c = '.' then some r else none

/-- The optional greedy tag group `(?:[.-][a-zA-Z0-9]+)?`: the characters it
consumes (`[]` when it matches empty). -/
def eatTag (cs : List Char) : List Char :=
  match cs with
  | [] => []
  | c :: r =>
    if c = '.' ∨ c = '-' then
      if r.takeWhile isAlnumA = [] then [] else c :: r.takeWhile isAlnumA
    else []

/-- The regex match attempt anchored at the head of `cs`:
`\d+` `\.` `\d+` `\.` `\d+` then the optional tag group, failure at any
mandatory step failing the whole attempt. -/
def semverMatchAt (cs : List Char) : Option (List Char) :=
  (eatDigits cs).bind fun p1 =>
    (eatDot p1.2).bind fun r2 =>
      (eatDigits r2).bind fun p2 =>
        (eatDot p2.2).bind fun r4 =>
          (eatDigits r4).map fun p3 =>
            p1.1 ++ '.' :: (p2.1 ++ '.' :: (p3.1 ++ eatTag p3.2))

/-- Leftmost match: try each start position from the left. -/
def findSemver : List Char → Option (List Char)
  | [] => none
  | c :: cs =>
    match semverMatchAt (c :: cs) with
    | some m => some m
    | none => findSemver cs

/-- `extractSemver(text)`: first match of the version regex, or `null`. -/
def extractSemver (text : String) : Option String :=
  match findSemver text.data with
  | some m => some ⟨m⟩
  | none => none

/-! Claim-side shape of a "bare" version string, written from the spec's
words: `\d+\.\d+\.\d+` optionally suffixed with one `[.-]`-separated
alphanumeric tag segment. -/

/-- A nonempty all-digit run. -/
def DigitRunL (d : List Char) : Prop := d ≠ [] ∧ ∀ c ∈ d, isDig c = true

/-- An optional version suffix: empty, or one `.`/`-` separator followed by a
nonempty alphanumeric run. -/
def TagOkL (t : List Char) : Prop :=
  t = [] ∨ ∃ c r, t = c :: r ∧ (c = '.' ∨ c = '-') ∧ r ≠ [] ∧ ∀ x ∈ r, isAlnumA x = true

/-- A character list that is exactly a bare version. -/
def BareVersionL (u : List Char) : Prop :=
  ∃ d1 d2 d3 t, u = d1 ++ '.' :: (d2 ++ '.' :: (d3 ++ t)) ∧
    DigitRunL d1 ∧ DigitRunL d2 ∧ DigitRunL d3 ∧ TagOkL t

/-- A string that is exactly a bare version. -/
def BareVersion (s : String) : Prop := BareVersionL s.data

/-- The installed-version extraction step of the resolvers:
`extractSemver(text) || text`. -/
def extractVersionStep (text : String) : String :=
  match extractSemver text with
  | some v => v
  | none => text

/-! ## `compareVersions` -/

/-- The three-valued tool status. -/
inductive VersionStatus where
  | upToDate : VersionStatus
  | outdated : VersionStatus
  | unknown : VersionStatus
deriving DecidableEq

/-- `compareVersions(current, latest)`: `!current || !latest` is the
JavaScript falsiness test, i.e. emptiness for strings. -/
def compareVersions (current latest : String) : VersionStatus :=
  if current = "" ∨ latest = "" then VersionStatus.unknown
  else if jsTrim current = jsTrim latest then VersionStatus.upToDate
  else VersionStatus.outdated

/-! ## Shell execution

`runInLoginShell` wraps the command for `execAsync` as
`<shell> -lc "<quote-escaped command>"`.  The environment maps that full
string to a thrown error or `(stdout, stderr)`. -/

/-- The two shell interpreters the code selects between. -/
inductive Shell where
  | zsh : Shell
  | bash : Shell
deriving DecidableEq

/-- Outcome of one `execAsync` invocation: thrown error message, or
`(stdout, stderr)`. -/
abbrev ExecEnv := String → Except String (String × String)

/-- The interpreter path `runInLoginShell` picks. -/
def shellProgram : Shell → String
  | Shell.zsh => "/bin/zsh"
  | Shell.bash => "/bin/bash"

/-- The full `execAsync` command string built by `runInLoginShell`. -/
def loginCmd (shell : Shell) (command : String) : String :=
  shellProgram shell ++ " -lc \"" ++ quoteCmd command ++ "\""

/-- `runInLoginShell(command, shell)`. -/
def runInLoginShell (env : ExecEnv) (command : String) (shell : Shell) :
    Except String (String × String) :=
  env (loginCmd shell command)

/-- One external call made by an operation, in order. -/
inductive Call where
  | exec : String → Call
  | httpsGet : String → Call
deriving DecidableEq

/-! ## Installed-version resolver (`getInstalledVersionForCommand`) -/

/-- The default probe flag list. -/
def installedFlags : List String := ["-v", "--version", "version"]

/-- `getInstalledVersionForCommand(command, flags)`: probe
`<command> <flag>` in a zsh login shell for each flag in order; combined
stdout+stderr is trimmed, `extractSemver(text) || text` is the candidate;
return the first nonempty candidate, skipping every failure; empty string
when exhausted.  Also returns the trace of `execAsync` calls attempted. -/
def getInstalledVersionForCommand (env : ExecEnv) (command : String) :
    List String → String × List Call
  | [] => ("", [])
  | flag :: rest =>
    match runInLoginShell env (command ++ " " ++ flag) Shell.zsh with
    | Except.error _ =>
      let r := getInstalledVersionForCommand env command rest
      (r.1, Call.exec (loginCmd Shell.zsh (command ++ " " ++ flag)) :: r.2)
    | Except.ok (o, e) =>
      let text := jsTrim (o ++ "\n" ++ e)
      let version :=
        match extractSemver text with
        | some v => v
        | none => text
      if version = "" then
        let r := getInstalledVersionForCommand env command rest
        (r.1, Call.exec (loginCmd Shell.zsh (command ++ " " ++ flag)) :: r.2)
      else (version, [Call.exec (loginCmd Shell.zsh (command ++ " " ++ flag))])

/-- A probe that yields nothing: the invocation throws, or its combined
trimmed output is empty. -/
def probeBlank (env : ExecEnv) (command flag : String) : Bool :=
  match runInLoginShell env (command ++ " " ++ flag) Shell.zsh with
  | Except.error _ => true
  | Except.ok (o, e) => jsTrim (o ++ "\n" ++ e) == ""

/-! ## Latest-version resolver, per-package form
(`getLatestVersionForPackage` of the multi-tool command) -/

/-- `getLatestVersionForPackage(npmPackage)`: a single
`npm view <pkg> version` in a zsh login shell; combined output trimmed,
`extractSemver(text) || text`; any error is caught and yields `""`. -/
def getLatestVersionForPackage (env : ExecEnv) (npmPackage : String) :
    String × List Call :=
  match runInLoginShell env ("npm view " ++ npmPackage ++ " version") Shell.zsh with
  | Except.error _ =>
    ("", [Call.exec (loginCmd Shell.zsh ("npm view " ++ npmPackage ++ " version"))])
  | Except.ok (o, e) =>
    let text := jsTrim (o ++ "\n" ++ e)
    let version :=
      match extractSemver text with
      | some v => v
      | none => text
    (version, [Call.exec (loginCmd Shell.zsh ("npm view " ++ npmPackage ++ " version"))])

/-! ## Latest-version resolver, fallback-chain form
(`getLatestVersion` of the single-tool command; package fixed to
`@anthropic-ai/claude-code`) -/

/-- The shells tried, in order. -/
def latestShells : List Shell := [Shell.zsh, Shell.bash]

/-- The npm invocation variants tried, in order. -/
def latestCommands : List String :=
  [ "npm view @anthropic-ai/claude-code version"
  , "npm view @anthropic-ai/claude-code version --silent"
  , "npm view @anthropic-ai/claude-code version --json"
  , "/opt/homebrew/bin/npm view @anthropic-ai/claude-code version"
  , "/usr/local/bin/npm view @anthropic-ai/claude-code version" ]

/-- Interpretation of a nonempty trimmed npm stdout: JSON-looking output is
parsed (a bare string, or an object's `version` field); anything else is
returned raw. -/
def interpretNpmOut (out : String) : String :=
  if jsStartsWith out "\"" || jsStartsWith out "\x7b" then
    match jsonParse out with
    | some (Json.str s) => jsTrim s
    | some v =>
      match jGet v "version" with
      | some (Json.str s) => jsTrim s
      | _ => out
    | none => out
  else out

/-- The inner command loop for one shell: first invocation with nonempty
trimmed stdout decides; errors and empty outputs skip to the next. -/
def tryNpmCommands (env : ExecEnv) (shell : Shell) :
    List String → Option String × List Call
  | [] => (none, [])
  | cmd :: rest =>
    match runInLoginShell env cmd shell with
    | Except.error _ =>
      let r := tryNpmCommands env shell rest
      (r.1, Call.exec (loginCmd shell cmd) :: r.2)
    | Except.ok (o, _) =>
      let out := jsTrim o
      if out = "" then
        let r := tryNpmCommands env shell rest
        (r.1, Call.exec (loginCmd shell cmd) :: r.2)
      else (some (interpretNpmOut out), [Call.exec (loginCmd shell cmd)])

/-- The outer shell loop. -/
def tryNpmShells (env : ExecEnv) : List Shell → Option String × List Call
  | [] => (none, [])
  | sh :: rest =>
    match tryNpmCommands env sh latestCommands with
    | (some v, tr) => (some v, tr)
    | (none, tr) =>
      let r := tryNpmShells env rest
      (r.1, tr ++ r.2)

/-- An npm-view attempt that yields nothing: the invocation throws or its
trimmed stdout is empty. -/
def attemptBlank (env : ExecEnv) (shell : Shell) (cmd : String) : Bool :=
  match runInLoginShell env cmd shell with
  | Except.error _ => true
  | Except.ok (o, _) => jsTrim o == ""

/-- The registry metadata URL of the curl and https fallbacks. -/
def registryLatestUrl : String :=
  "https://registry.npmjs.org/%40anthropic-ai%2Fclaude-code/latest"

/-- The curl fallback command. -/
def curlLatestCmd : String := "curl -s " ++ registryLatestUrl

/-- Outcome of the one direct `https.get`: `none` for a request error,
otherwise the status code and the collected body. -/
abbrev HttpsEnv := Option (Nat × String)

/-- The curl fallback block: `none` models every caught failure (thrown
exec, empty output, `JSON.parse` throw, missing or unusable `version`).
The call site omits the shell argument, so `runInLoginShell`'s default
(`bash` in this file of the source) applies. -/
def curlVersionOpt (env : ExecEnv) : Option String :=
  match runInLoginShell env curlLatestCmd Shell.bash with
  | Except.error _ => none
  | Except.ok (o, _) =>
    let text := jsTrim o
    if text = "" then none
    else
      match jsonParse text with
      | none => none
      | some data =>
        match jGet data "version" with
        | some (Json.str s) => if s = "" then none else some (jsTrim s)
        | _ => none

/-- The https fallback: resolves `""` on request error, non-200 status,
parse failure or a non-string `version`; otherwise the trimmed version. -/
def httpsGetVersion (hs : HttpsEnv) : String :=
  match hs with
  | none => ""
  | some (status, body) =>
    if status ≠ 200 then ""
    else
      match jsonParse body with
      | none => ""
      | some parsed =>
        match jGet parsed "version" with
        | some (Json.str s) => jsTrim s
        | _ => ""

/-- `getLatestVersion()`: npm-view shell attempts across both shells, then
the curl fallback, then the https fallback, then `""`; every stage's
exception is caught.  Also returns the ordered trace of external calls. -/
def getLatestVersion (env : ExecEnv) (hs : HttpsEnv) : String × List Call :=
  match tryNpmShells env latestShells with
  | (some v, tr) => (v, tr)
  | (none, tr) =>
    let tr2 := tr ++ [Call.exec (loginCmd Shell.bash curlLatestCmd)]
    match curlVersionOpt env with
    | some v => (v, tr2)
    | none =>
      let v := httpsGetVersion hs
      (if v = "" then "" else v, tr2 ++ [Call.httpsGet registryLatestUrl])

/-! ## Update orchestration (multi-tool command) -/

/-- Toast styles. -/
inductive ToastStyle where
  | animated : ToastStyle
  | success : ToastStyle
  | failure : ToastStyle
deriving DecidableEq

/-- One `showToast` notification. -/
structure Toast where
  style : ToastStyle
  title : String
  message : Option String
deriving DecidableEq

/-- `updateClaude()`: runs `claude update` in a zsh login shell inside a
try/catch; the promise always fulfills — a thrown error becomes a failure
toast, success becomes a success toast carrying the last output line. -/
def updateClaude (env : ExecEnv) : List Call × List Toast :=
  let start : Toast := ⟨ToastStyle.animated, "Running claude update...", none⟩
  match runInLoginShell env "claude update" Shell.zsh with
  | Except.ok (o, e) =>
    let text := jsTrim (o ++ "\n" ++ e)
    ([Call.exec (loginCmd Shell.zsh "claude update")],
     [start, ⟨ToastStyle.success, "Update completed",
              if text = "" then none else some (lastLineOf text)⟩])
  | Except.error err =>
    ([Call.exec (loginCmd Shell.zsh "claude update")],
     [start, ⟨ToastStyle.failure, "Update failed", some err⟩])

/-- `updateViaNpmGlobal(npmPackage)`: runs `npm i -g <pkg>` in a zsh login
shell inside a try/catch; the promise always fulfills. -/
def updateViaNpmGlobal (env : ExecEnv) (npmPackage : String) : List Call × List Toast :=
  let start : Toast := ⟨ToastStyle.animated, "Installing " ++ npmPackage ++ " globally...", none⟩
  match runInLoginShell env ("npm i -g " ++ npmPackage) Shell.zsh with
  | Except.ok (o, e) =>
    let text := jsTrim (o ++ "\n" ++ e)
    ([Call.exec (loginCmd Shell.zsh ("npm i -g " ++ npmPackage))],
     [start, ⟨ToastStyle.success, "Global install completed",
              if text = "" then none else some (lastLineOf text)⟩])
  | Except.error err =>
    ([Call.exec (loginCmd Shell.zsh ("npm i -g " ++ npmPackage))],
     [start, ⟨ToastStyle.failure, "Global install failed", some err⟩])

/-- Tool identifiers of the fixed table. -/
inductive ToolId where
  | claude : ToolId
  | gemini : ToolId
  | qwen : ToolId
deriving DecidableEq

/-- Update mechanism tag. -/
inductive UpdateType where
  | cli : UpdateType
  | npmGlobal : UpdateType
deriving DecidableEq

/-- One row of the static tool table. -/
structure ToolConfig where
  id : ToolId
  title : String
  npmPackage : String
  command : String
  updateType : Option UpdateType
  updateCommand : Option String
deriving DecidableEq

/-- The fixed `TOOLS` table. -/
def TOOLS : List ToolConfig :=
  [ ⟨ToolId.claude, "Claude Code Version", "@anthropic-ai/claude-code", "claude",
     some UpdateType.cli, some "claude update"⟩
  , ⟨ToolId.gemini, "Gemini CLI Version", "@google/gemini-cli", "gemini",
     some UpdateType.npmGlobal, none⟩
  , ⟨ToolId.qwen, "Qwen Code CLI Version", "@qwen-code/qwen-code", "qwen",
     some UpdateType.npmGlobal, none⟩ ]

/-- Per-tool mutable UI state. -/
structure ToolState where
  installedVersion : String
  latestVersion : String
  status : VersionStatus
deriving DecidableEq

/-- JavaScript truthiness of an optional string (`tool.updateCommand`). -/
def optTruthy : Option String → Bool
  | some s => s ≠ ""
  | none => false

/-- The async arrow mapped over the outdated tools: dispatch on the update
mechanism, then `return tool.id`.  `updateClaude` and `updateViaNpmGlobal`
catch internally, so the task's promise always fulfills. -/
def updateToolTask (env : ExecEnv) (tool : ToolConfig) :
    List Call × List Toast × Except String ToolId :=
  if tool.updateType = some UpdateType.cli ∧ optTruthy tool.updateCommand = true then
    ((updateClaude env).1, (updateClaude env).2, Except.ok tool.id)
  else if tool.updateType = some UpdateType.npmGlobal then
    ((updateViaNpmGlobal env tool.npmPackage).1,
     (updateViaNpmGlobal env tool.npmPackage).2, Except.ok tool.id)
  else ([], [], Except.ok tool.id)

/-- The filter `tools.filter(t => currentStates[t.id]?.status === "outdated")`. -/
def outdatedToolsOf (tools : List ToolConfig) (currentStates : ToolId → Option ToolState) :
    List ToolConfig :=
  tools.filter fun tool =>
    match currentStates tool.id with
    | some st => st.status == VersionStatus.outdated
    | none => false

/-- Pluralizing suffix used by the bulk toasts. -/
def pluralS (n : Nat) : String := if n > 1 then "s" else ""

/-- The `Updating N tool(s)...` toast. -/
def updatingToast (n : Nat) : Toast :=
  ⟨ToastStyle.animated, "Updating " ++ toString n ++ " tool" ++ pluralS n ++ "...", none⟩

/-- The `Updated N tool(s)` toast. -/
def updatedToast (n : Nat) : Toast :=
  ⟨ToastStyle.success, "Updated " ++ toString n ++ " tool" ++ pluralS n, none⟩

/-- The `N update(s) failed` toast. -/
def failedToast (n : Nat) : Toast :=
  ⟨ToastStyle.failure, toString n ++ " update" ++ pluralS n ++ " failed", none⟩

/-- The `All tools are up to date` toast. -/
def allUpToDateToast : Toast :=
  ⟨ToastStyle.success, "All tools are up to date", none⟩

/-- Is a settled result rejected? -/
def isRejected : Except String ToolId → Bool
  | Except.error _ => true
  | Except.ok _ => false

/-- The fulfilled value of a settled result, if any. -/
def fulfilledId : Except String ToolId → Option ToolId
  | Except.ok i => some i
  | Except.error _ => none

deriving instance DecidableEq for Except

/-- Observable outcome of `updateAllOutdatedTools`: the `execAsync` calls
made, the toasts shown, and the `Promise.allSettled` results. -/
structure BulkResult where
  calls : List Call
  toasts : List Toast
  settled : List (Except String ToolId)
deriving DecidableEq

/-- `updateAllOutdatedTools(tools, currentStates)`: filter to outdated; if
none, a success toast and return; otherwise one update task per outdated
tool, `Promise.allSettled`, then an `Updated N` success toast when any
fulfilled and an `N updates failed` failure toast when any rejected.
Concurrent tasks are recorded in launch order (single event loop; only
counts and membership of the trace are used by theorems). -/
def updateAllOutdatedTools (env : ExecEnv) (tools : List ToolConfig)
    (currentStates : ToolId → Option ToolState) : BulkResult :=
  let outdatedTools := outdatedToolsOf tools currentStates
  if outdatedTools.length = 0 then
    { calls := [], toasts := [allUpToDateToast], settled := [] }
  else
    let results := outdatedTools.map (updateToolTask env)
    let settled := results.map fun r => r.2.2
    let updatedToolIds := settled.filterMap fulfilledId
    let successToasts :=
      if updatedToolIds.length > 0 then [updatedToast updatedToolIds.length] else []
    let failedCount := (settled.filter isRejected).length
    let failToasts := if failedCount > 0 then [failedToast failedCount] else []
    { calls := (results.map fun r => r.1).flatten,
      toasts := updatingToast outdatedTools.length ::
        ((results.map fun r => r.2.1).flatten ++ successToasts ++ failToasts),
      settled := settled }

/-! ## Settings (`loadSettings` and the spread-merge over defaults)

The runtime object spread `{ ...DEFAULT_SETTINGS, ...parsed }` is untyped:
each field holds whatever JSON value the persisted blob supplied, so the
merged record is modelled with `Json`-valued fields. -/

/-- The settings record as it exists at runtime. -/
structure SettingsV where
  defaultVibeAgent : Json
  packageManager : Json
  yoloEnabled : Json

/-- `DEFAULT_SETTINGS`. -/
def DEFAULT_SETTINGS : SettingsV :=
  ⟨Json.str "claude", Json.str "npm", Json.bool false⟩

/-- `{ ...defaults, ...parsed }`: a parsed object overrides fieldwise; any
non-object parse result spreads no matching own properties, leaving the
defaults. -/
def spreadMerge (defaults : SettingsV) (parsed : Json) : SettingsV :=
  match parsed with
  | Json.obj kvs =>
    { defaultVibeAgent := (lookupLast kvs "defaultVibeAgent").getD defaults.defaultVibeAgent,
      packageManager := (lookupLast kvs "packageManager").getD defaults.packageManager,
      yoloEnabled := (lookupLast kvs "yoloEnabled").getD defaults.yoloEnabled }
  | _ => defaults

/-- Outcome of `LocalStorage.getItem`: a thrown storage error, or the
optional stored blob. -/
abbrev StorageEnv := Except String (Option String)

/-- `loadSettings()`: read the blob; a missing or falsy blob, a storage
error or a `JSON.parse` error all fall back to `DEFAULT_SETTINGS`; a parsed
blob is spread over the defaults.  Never throws. -/
def loadSettings (storage : StorageEnv) : SettingsV :=
  match storage with
  | Except.error _ => DEFAULT_SETTINGS
  | Except.ok none => DEFAULT_SETTINGS
  | Except.ok (some storedSettings) =>
    if storedSettings = "" then DEFAULT_SETTINGS
    else
      match jsonParse storedSettings with
      | none => DEFAULT_SETTINGS
      | some parsed => spreadMerge DEFAULT_SETTINGS parsed

/-! ## Concrete environments used by closed instances -/

/-- An execution environment in which every external command throws. -/
def allFailEnv : ExecEnv := fun _ => Except.error "command not found"

/-- The registry response body of the curl scenario. -/
def registryBody140 : String := "\x7b\"version\":\"1.4.0\"\x7d"

/-- Every external call of a fully failing `getLatestVersion` run, in order:
ten npm-view attempts (five variants under zsh, then under bash), the curl
fallback, the https fallback. -/
def allLatestCalls : List Call :=
  ((latestShells.map fun sh => latestCommands.map fun c => Call.exec (loginCmd sh c)).flatten)
    ++ [Call.exec (loginCmd Shell.bash curlLatestCmd), Call.httpsGet registryLatestUrl]

/-- Environment where only the curl fallback answers, with the fixed body. -/
def c4Env : ExecEnv := fun s =>
  if s = loginCmd Shell.bash curlLatestCmd then Except.ok (registryBody140, "")
  else Except.error "shell attempt failed"

/-- Probe environment of the three-candidate scenario: the first two flags
produce empty output, the third produces `2.3.1 (build info)`. -/
def c6Env : ExecEnv := fun s =>
  if s = loginCmd Shell.zsh "mytool -v" then Except.ok ("", "")
  else if s = loginCmd Shell.zsh "mytool --version" then Except.ok ("", "")
  else if s = loginCmd Shell.zsh "mytool version" then Except.ok ("2.3.1 (build info)", "")
  else Except.error "not found"

/-- Tool states of the bulk-update scenario: `claude` and `qwen` outdated,
`gemini` up to date. -/
def c2States : ToolId → Option ToolState
  | ToolId.claude => some ⟨"1.0.0", "1.1.0", VersionStatus.outdated⟩
  | ToolId.gemini => some ⟨"2.0.0", "2.0.0", VersionStatus.upToDate⟩
  | ToolId.qwen => some ⟨"3.0.0", "3.1.0", VersionStatus.outdated⟩

/-- Execution environment of the bulk-update scenario: the `claude update`
command throws, the qwen global install succeeds. -/
def c2Env : ExecEnv := fun s =>
  if s = loginCmd Shell.zsh "claude update" then Except.error "claude update failed"
  else if s = loginCmd Shell.zsh "npm i -g @qwen-code/qwen-code" then
    Except.ok ("updated 1 package", "")
  else Except.error "unexpected"

/-- Environment where every update command throws. -/
def c9Env : ExecEnv := fun _ => Except.error "network down"

/-- States in which every tool is outdated. -/
def c9States : ToolId → Option ToolState :=
  fun _ => some ⟨"1.0.0", "2.0.0", VersionStatus.outdated⟩

/-! ## List helper lemmas -/

theorem takeWhile_app {p : Char → Bool} :
    ∀ (d rest : List Char), (∀ c ∈ d, p c = true) →
      (d ++ rest).takeWhile p = d ++ rest.takeWhile p := by
  intro d rest h
  induction d with
  | nil => rfl
  | cons c cs ih =>
    have hc : p c = true := h c (List.mem_cons_self c cs)
    simp only [List.cons_append, List.takeWhile_cons, hc, if_true]
    rw [ih fun x hx => h x (List.mem_cons_of_mem c hx)]

theorem dropWhile_app {p : Char → Bool} :
    ∀ (d rest : List Char), (∀ c ∈ d, p c = true) →
      (d ++ rest).dropWhile p = rest.dropWhile p := by
  intro d rest h
  induction d with
  | nil => rfl
  | cons c cs ih =>
    have hc : p c = true := h c (List.mem_cons_self c cs)
    simp only [List.cons_append, List.dropWhile_cons, hc, if_true]
    exact ih fun x hx => h x (List.mem_cons_of_mem c hx)

theorem takeWhile_stop {p : Char → Bool} (c : Char) (rest : List Char) (h : p c = false) :
    (c :: rest).takeWhile p = [] := by
  simp [List.takeWhile_cons, h]

theorem dropWhile_stop {p : Char → Bool} (c : Char) (rest : List Char) (h : p c = false) :
    (c :: rest).dropWhile p = c :: rest := by
  simp [List.dropWhile_cons, h]

theorem mem_takeWhile {p : Char → Bool} :
    ∀ (l : List Char), ∀ c ∈ l.takeWhile p, p c = true := by
  intro l
  induction l with
  | nil => intro c hc; simp [List.takeWhile] at hc
  | cons a as ih =>
    intro c hc
    by_cases ha : p a = true
    · rw [List.takeWhile_cons, if_pos ha] at hc
      rcases List.mem_cons.mp hc with h | h
      · rwa [h]
      · exact ih c h
    · rw [List.takeWhile_cons, if_neg ha] at hc
      simp at hc

/-! ## Lemmas about the semver matcher -/

theorem eatDigits_app (d r : List Char) (hne : d ≠ []) (hall : ∀ c ∈ d, isDig c = true) :
    eatDigits (d ++ r) = some (d ++ r.takeWhile isDig, r.dropWhile isDig) := by
  have ht : (d ++ r).takeWhile isDig = d ++ r.takeWhile isDig := takeWhile_app d r hall
  have hd : (d ++ r).dropWhile isDig = r.dropWhile isDig := dropWhile_app d r hall
  have hne2 : d ++ r.takeWhile isDig ≠ [] := by
    intro hcontra
    exact hne (List.append_eq_nil.mp hcontra).1
  unfold eatDigits
  rw [ht, hd, if_neg hne2]

theorem eatDigits_sound (cs d r : List Char) (h : eatDigits cs = some (d, r)) :
    cs = d ++ r ∧ d ≠ [] ∧ ∀ c ∈ d, isDig c = true := by
  unfold eatDigits at h
  by_cases hn : cs.takeWhile isDig = []
  · rw [if_pos hn] at h; exact absurd h (by simp)
  · rw [if_neg hn] at h
    simp only [Option.some.injEq, Prod.mk.injEq] at h
    obtain ⟨h1, h2⟩ := h
    refine ⟨?_, h1 ▸ hn, fun c hc => mem_takeWhile cs c (h1 ▸ hc)⟩
    rw [← h1, ← h2, List.takeWhile_append_dropWhile]

theorem eatDot_sound (cs r : List Char) (h : eatDot cs = some r) : cs = '.' :: r := by
  cases cs with
  | nil => exact absurd h (by simp [eatDot])
  | cons c t =>
    by_cases hc : c = '.'
    · subst hc
      have ht : t = r := by simpa [eatDot] using h
      rw [ht]
    · exact absurd h (by simp [eatDot, hc])

theorem eatTag_sound (cs : List Char) :
    TagOkL (eatTag cs) ∧ ∃ rest, cs = eatTag cs ++ rest := by
  match cs with
  | [] => exact ⟨Or.inl rfl, [], rfl⟩
  | c :: r =>
    have hdef : eatTag (c :: r) =
        if c = '.' ∨ c = '-' then
          (if r.takeWhile isAlnumA = [] then [] else c :: r.takeWhile isAlnumA)
        else [] := rfl
    rw [hdef]
    by_cases hsep : c = '.' ∨ c = '-'
    · rw [if_pos hsep]
      by_cases hrun : r.takeWhile isAlnumA = []
      · rw [if_pos hrun]
        exact ⟨Or.inl rfl, c :: r, rfl⟩
      · rw [if_neg hrun]
        refine ⟨Or.inr ⟨c, r.takeWhile isAlnumA, rfl, hsep, hrun,
          fun x hx => mem_takeWhile r x hx⟩, r.dropWhile isAlnumA, ?_⟩
        simp only [List.cons_append, List.cons.injEq, true_and]
        rw [List.takeWhile_append_dropWhile]
    · rw [if_neg hsep]
      exact ⟨Or.inl rfl, c :: r, rfl⟩

theorem takeWhile_all {p : Char → Bool} :
    ∀ l : List Char, (∀ c ∈ l, p c = true) → l.takeWhile p = l := by
  intro l h
  induction l with
  | nil => rfl
  | cons c cs ih =>
    rw [List.takeWhile_cons, if_pos (h c (List.mem_cons_self c cs))]
    rw [ih fun x hx => h x (List.mem_cons_of_mem c hx)]

theorem semverMatchAt_nil : semverMatchAt [] = none := rfl

theorem findSemver_cons (c : Char) (cs : List Char) :
    findSemver (c :: cs) =
      match semverMatchAt (c :: cs) with
      | some m => some m
      | none => findSemver cs := rfl

theorem semverMatchAt_sound (cs m : List Char) (h : semverMatchAt cs = some m) :
    BareVersionL m ∧ ∃ rest, cs = m ++ rest := by
  unfold semverMatchAt at h
  cases h1 : eatDigits cs with
  | none => rw [h1, Option.none_bind] at h; exact absurd h (by simp)
  | some p1 =>
    obtain ⟨d1, r1⟩ := p1
    rw [h1, Option.some_bind] at h
    cases h2 : eatDot r1 with
    | none => rw [h2, Option.none_bind] at h; exact absurd h (by simp)
    | some r2 =>
      rw [h2, Option.some_bind] at h
      cases h3 : eatDigits r2 with
      | none => rw [h3, Option.none_bind] at h; exact absurd h (by simp)
      | some p2 =>
        obtain ⟨d2, r3⟩ := p2
        rw [h3, Option.some_bind] at h
        cases h4 : eatDot r3 with
        | none => rw [h4, Option.none_bind] at h; exact absurd h (by simp)
        | some r4 =>
          rw [h4, Option.some_bind] at h
          cases h5 : eatDigits r4 with
          | none => rw [h5] at h; exact absurd h (by simp)
          | some p3 =>
            obtain ⟨d3, r5⟩ := p3
            rw [h5, Option.map_some'] at h
            simp only [Option.some.injEq] at h
            obtain ⟨hcs1, hne1, hall1⟩ := eatDigits_sound cs d1 r1 h1
            obtain ⟨hcs2, hne2, hall2⟩ := eatDigits_sound r2 d2 r3 h3
            obtain ⟨hcs3, hne3, hall3⟩ := eatDigits_sound r4 d3 r5 h5
            obtain ⟨htag, rest, hr5⟩ := eatTag_sound r5
            subst h
            generalize htg : eatTag r5 = tg at htag hr5 ⊢
            refine ⟨⟨d1, d2, d3, tg, rfl, ⟨hne1, hall1⟩, ⟨hne2, hall2⟩,
              ⟨hne3, hall3⟩, htag⟩, rest, ?_⟩
            rw [hcs1, eatDot_sound r1 r2 h2, hcs2, eatDot_sound r3 r4 h4, hcs3, hr5]
            simp [List.append_assoc]

theorem semverMatchAt_bare (u : List Char) (hb : BareVersionL u) :
    semverMatchAt u = some u := by
  obtain ⟨d1, d2, d3, t, hu, ⟨hne1, hall1⟩, ⟨hne2, hall2⟩, ⟨hne3, hall3⟩, htag⟩ := hb
  subst hu
  have hdotF : isDig '.' = false := by decide
  have e1 : eatDigits (d1 ++ '.' :: (d2 ++ '.' :: (d3 ++ t))) =
      some (d1, '.' :: (d2 ++ '.' :: (d3 ++ t))) := by
    rw [eatDigits_app d1 _ hne1 hall1, takeWhile_stop '.' _ hdotF,
      dropWhile_stop '.' _ hdotF, List.append_nil]
  have e2 : eatDot ('.' :: (d2 ++ '.' :: (d3 ++ t))) = some (d2 ++ '.' :: (d3 ++ t)) := rfl
  have e3 : eatDigits (d2 ++ '.' :: (d3 ++ t)) = some (d2, '.' :: (d3 ++ t)) := by
    rw [eatDigits_app d2 _ hne2 hall2, takeWhile_stop '.' _ hdotF,
      dropWhile_stop '.' _ hdotF, List.append_nil]
  have e4 : eatDot ('.' :: (d3 ++ t)) = some (d3 ++ t) := rfl
  rcases htag with ht0 | ⟨c, r, htr, hsep, hrne, hrall⟩
  · subst ht0
    have e5 : eatDigits (d3 ++ ([] : List Char)) = some (d3, []) := by
      rw [eatDigits_app d3 [] hne3 hall3]
      simp
    unfold semverMatchAt
    rw [e1, Option.some_bind, e2, Option.some_bind, e3, Option.some_bind, e4,
      Option.some_bind, e5, Option.map_some']
    rfl
  · subst htr
    have hcF : isDig c = false := by
      rcases hsep with hc | hc <;> rw [hc] <;> decide
    have e5 : eatDigits (d3 ++ c :: r) = some (d3, c :: r) := by
      rw [eatDigits_app d3 _ hne3 hall3, takeWhile_stop c _ hcF,
        dropWhile_stop c _ hcF, List.append_nil]
    have e6 : eatTag (c :: r) = c :: r := by
      have hdef : eatTag (c :: r) =
          if c = '.' ∨ c = '-' then
            (if r.takeWhile isAlnumA = [] then [] else c :: r.takeWhile isAlnumA)
          else [] := rfl
      rw [hdef, if_pos hsep, takeWhile_all r hrall, if_neg hrne]
    unfold semverMatchAt
    rw [e1, Option.some_bind, e2, Option.some_bind, e3, Option.some_bind, e4,
      Option.some_bind, e5, Option.map_some']
    show some (d1 ++ '.' :: (d2 ++ '.' :: (d3 ++ eatTag (c :: r)))) =
      some (d1 ++ '.' :: (d2 ++ '.' :: (d3 ++ c :: r)))
    rw [e6]

theorem semverMatchAt_app_isSome (u : List Char) (hb : BareVersionL u) (rest : List Char) :
    ∃ m, semverMatchAt (u ++ rest) = some m := by
  obtain ⟨d1, d2, d3, t, hu, ⟨hne1, hall1⟩, ⟨hne2, hall2⟩, ⟨hne3, hall3⟩, htag⟩ := hb
  subst hu
  have hdotF : isDig '.' = false := by decide
  have hform : (d1 ++ '.' :: (d2 ++ '.' :: (d3 ++ t))) ++ rest =
      d1 ++ '.' :: (d2 ++ '.' :: (d3 ++ (t ++ rest))) := by
    simp [List.append_assoc]
  rw [hform]
  have e1 : eatDigits (d1 ++ '.' :: (d2 ++ '.' :: (d3 ++ (t ++ rest)))) =
      some (d1, '.' :: (d2 ++ '.' :: (d3 ++ (t ++ rest)))) := by
    rw [eatDigits_app d1 _ hne1 hall1, takeWhile_stop '.' _ hdotF,
      dropWhile_stop '.' _ hdotF, List.append_nil]
  have e2 : eatDot ('.' :: (d2 ++ '.' :: (d3 ++ (t ++ rest)))) =
      some (d2 ++ '.' :: (d3 ++ (t ++ rest))) := rfl
  have e3 : eatDigits (d2 ++ '.' :: (d3 ++ (t ++ rest))) =
      some (d2, '.' :: (d3 ++ (t ++ rest))) := by
    rw [eatDigits_app d2 _ hne2 hall2, takeWhile_stop '.' _ hdotF,
      dropWhile_stop '.' _ hdotF, List.append_nil]
  have e4 : eatDot ('.' :: (d3 ++ (t ++ rest))) = some (d3 ++ (t ++ rest)) := rfl
  have e5 : eatDigits (d3 ++ (t ++ rest)) =
      some (d3 ++ (t ++ rest).takeWhile isDig, (t ++ rest).dropWhile isDig) :=
    eatDigits_app d3 _ hne3 hall3
  unfold semverMatchAt
  rw [e1, Option.some_bind, e2, Option.some_bind, e3, Option.some_bind, e4,
    Option.some_bind, e5, Option.map_some']
  exact ⟨_, rfl⟩

theorem findSemver_found (cs m : List Char) (h : findSemver cs = some m) :
    ∃ i, i < cs.length ∧ semverMatchAt (cs.drop i) = some m ∧
      ∀ j < i, semverMatchAt (cs.drop j) = none := by
  induction cs with
  | nil => exact absurd h (by simp [findSemver])
  | cons c cs ih =>
    cases hm : semverMatchAt (c :: cs) with
    | some m' =>
      have hmm : m' = m := by
        have h2 := h
        rw [findSemver_cons, hm] at h2
        simpa using h2
      subst hmm
      exact ⟨0, by simp, hm, fun j hj => absurd hj (by omega)⟩
    | none =>
      have h' : findSemver cs = some m := by
        have h2 := h
        rwa [findSemver_cons, hm] at h2
      obtain ⟨i, hlen, hmi, hnone⟩ := ih h'
      refine ⟨i + 1, by simpa using Nat.succ_lt_succ hlen, ?_, ?_⟩
      · simpa using hmi
      · intro j hj
        cases j with
        | zero => simpa using hm
        | succ j' =>
          have hj' : j' < i := by omega
          simpa using hnone j' hj'

theorem findSemver_none (cs : List Char) (h : findSemver cs = none) :
    ∀ j, semverMatchAt (cs.drop j) = none := by
  induction cs with
  | nil => intro j; simp [List.drop_nil, semverMatchAt_nil]
  | cons c cs ih =>
    have hm : semverMatchAt (c :: cs) = none := by
      cases hm : semverMatchAt (c :: cs) with
      | none => rfl
      | some m' =>
        have h2 := h
        rw [findSemver_cons, hm] at h2
        exact absurd h2 (by simp)
    have h' : findSemver cs = none := by
      have h2 := h
      rwa [findSemver_cons, hm] at h2
    intro j
    cases j with
    | zero => simpa using hm
    | succ j' => simpa using ih h' j'

theorem findSemver_bare (u : List Char) (hb : BareVersionL u) : findSemver u = some u := by
  have hm := semverMatchAt_bare u hb
  obtain ⟨d1, d2, d3, t, hu, ⟨hne1, hall1x⟩, _, _, _⟩ := hb
  cases hd : d1 with
  | nil => exact absurd hd hne1
  | cons c cs =>
    subst hd
    have hu2 : u = c :: (cs ++ '.' :: (d2 ++ '.' :: (d3 ++ t))) := by
      rw [hu]; rfl
    rw [hu2] at hm ⊢
    rw [findSemver_cons, hm]

/-! ## Lemmas about the resolver loops -/

theorem tryNpmCommands_cons (env : ExecEnv) (sh : Shell) (cmd : String) (rest : List String) :
    tryNpmCommands env sh (cmd :: rest) =
      match runInLoginShell env cmd sh with
      | Except.error _ =>
        let r := tryNpmCommands env sh rest
        (r.1, Call.exec (loginCmd sh cmd) :: r.2)
      | Except.ok (o, _) =>
        let out := jsTrim o
        if out = "" then
          let r := tryNpmCommands env sh rest
          (r.1, Call.exec (loginCmd sh cmd) :: r.2)
        else (some (interpretNpmOut out), [Call.exec (loginCmd sh cmd)]) := rfl

theorem attemptBlank_ok (env : ExecEnv) (sh : Shell) (cmd : String) (o e : String)
    (hr : runInLoginShell env cmd sh = Except.ok (o, e)) :
    attemptBlank env sh cmd = (jsTrim o == "") := by
  unfold attemptBlank
  rw [hr]

theorem tryNpmCommands_blank (env : ExecEnv) (sh : Shell) :
    ∀ cmds : List String, (∀ c ∈ cmds, attemptBlank env sh c = true) →
      tryNpmCommands env sh cmds = (none, cmds.map fun c => Call.exec (loginCmd sh c)) := by
  intro cmds h
  induction cmds with
  | nil => rfl
  | cons cmd rest ih =>
    have hrec := ih fun c hc => h c (List.mem_cons_of_mem cmd hc)
    rw [tryNpmCommands_cons]
    cases hr : runInLoginShell env cmd sh with
    | error e => simp only [hrec, List.map_cons]
    | ok p =>
      obtain ⟨o, e⟩ := p
      have hb := h cmd (List.mem_cons_self cmd rest)
      rw [attemptBlank_ok env sh cmd o e hr] at hb
      have ho : jsTrim o = "" := by simpa using hb
      simp only [ho, if_pos rfl, hrec, List.map_cons, if_true]

theorem tryNpmShells_cons (env : ExecEnv) (sh : Shell) (rest : List Shell) :
    tryNpmShells env (sh :: rest) =
      match tryNpmCommands env sh latestCommands with
      | (some v, tr) => (some v, tr)
      | (none, tr) =>
        let r := tryNpmShells env rest
        (r.1, tr ++ r.2) := rfl

theorem tryNpmShells_blank (env : ExecEnv) :
    ∀ shs : List Shell, (∀ sh ∈ shs, ∀ c ∈ latestCommands, attemptBlank env sh c = true) →
      tryNpmShells env shs =
        (none, (shs.map fun sh => latestCommands.map fun c => Call.exec (loginCmd sh c)).flatten) := by
  intro shs h
  induction shs with
  | nil => rfl
  | cons sh rest ih =>
    have hcmds := tryNpmCommands_blank env sh latestCommands
      (h sh (List.mem_cons_self sh rest))
    have hrec := ih fun s hs c hc => h s (List.mem_cons_of_mem sh hs) c hc
    rw [tryNpmShells_cons, hcmds]
    simp only [hrec, List.map_cons, List.flatten_cons]

theorem tryNpmShells_some (env : ExecEnv) (hs : HttpsEnv) (v : String) (tr : List Call)
    (h : tryNpmShells env latestShells = (some v, tr)) :
    getLatestVersion env hs = (v, tr) := by
  unfold getLatestVersion
  rw [h]

theorem getInstalled_cons (env : ExecEnv) (command flag : String) (rest : List String) :
    getInstalledVersionForCommand env command (flag :: rest) =
      match runInLoginShell env (command ++ " " ++ flag) Shell.zsh with
      | Except.error _ =>
        let r := getInstalledVersionForCommand env command rest
        (r.1, Call.exec (loginCmd Shell.zsh (command ++ " " ++ flag)) :: r.2)
      | Except.ok (o, e) =>
        let text := jsTrim (o ++ "\n" ++ e)
        let version :=
          match extractSemver text with
          | some v => v
          | none => text
        if version = "" then
          let r := getInstalledVersionForCommand env command rest
          (r.1, Call.exec (loginCmd Shell.zsh (command ++ " " ++ flag)) :: r.2)
        else (version, [Call.exec (loginCmd Shell.zsh (command ++ " " ++ flag))]) := rfl

theorem probeBlank_ok (env : ExecEnv) (command flag o e : String)
    (hr : runInLoginShell env (command ++ " " ++ flag) Shell.zsh = Except.ok (o, e)) :
    probeBlank env command flag = (jsTrim (o ++ "\n" ++ e) == "") := by
  unfold probeBlank
  rw [hr]

theorem extractSemver_empty : extractSemver "" = none := rfl

theorem getInstalled_blank (env : ExecEnv) (command : String) :
    ∀ flags : List String, (∀ f ∈ flags, probeBlank env command f = true) →
      getInstalledVersionForCommand env command flags =
        ("", flags.map fun f => Call.exec (loginCmd Shell.zsh (command ++ " " ++ f))) := by
  intro flags h
  induction flags with
  | nil => rfl
  | cons flag rest ih =>
    have hrec := ih fun f hf => h f (List.mem_cons_of_mem flag hf)
    rw [getInstalled_cons]
    cases hr : runInLoginShell env (command ++ " " ++ flag) Shell.zsh with
    | error e => simp only [hrec, List.map_cons]
    | ok p =>
      obtain ⟨o, e⟩ := p
      have hb := h flag (List.mem_cons_self flag rest)
      rw [probeBlank_ok env command flag o e hr] at hb
      have ho : jsTrim (o ++ "\n" ++ e) = "" := by simpa using hb
      simp only [ho, extractSemver_empty, if_pos rfl, hrec, List.map_cons, if_true]

/-! ## Lemmas about the update orchestrator -/

theorem updateToolTask_ok (env : ExecEnv) (tool : ToolConfig) :
    (updateToolTask env tool).2.2 = Except.ok tool.id := by
  unfold updateToolTask
  split
  · rfl
  · split
    · rfl
    · rfl

theorem settled_map_ok (env : ExecEnv) :
    ∀ l : List ToolConfig,
      ((l.map (updateToolTask env)).map fun r => r.2.2) =
        l.map fun t => (Except.ok t.id : Except String ToolId) := by
  intro l
  induction l with
  | nil => rfl
  | cons t ts ih =>
    simp only [List.map_cons, updateToolTask_ok, ih]

theorem filter_rejected_nil :
    ∀ l : List ToolConfig,
      ((l.map fun t => (Except.ok t.id : Except String ToolId)).filter isRejected) = [] := by
  intro l
  induction l with
  | nil => rfl
  | cons t ts ih =>
    simp only [List.map_cons, List.filter_cons]
    rw [show isRejected (Except.ok t.id) = false from rfl]
    simpa using ih

theorem filterMap_fulfilled :
    ∀ l : List ToolConfig,
      ((l.map fun t => (Except.ok t.id : Except String ToolId)).filterMap fulfilledId) =
        l.map fun t => t.id := by
  intro l
  induction l with
  | nil => rfl
  | cons t ts ih =>
    simp only [List.map_cons, List.filterMap_cons]
    rw [show fulfilledId (Except.ok t.id) = some t.id from rfl]
    simpa using ih

/-! ## Claim theorems -/

/-- C1: `compareVersions` (a pure function of exactly the two version
strings) returns `unknown` iff at least one string is empty, `up-to-date`
iff both are nonempty and equal after trimming, and `outdated` in exactly
the remaining cases. -/
theorem compareVersions_spec (current latest : String) :
    (compareVersions current latest = VersionStatus.unknown ↔
      (current = "" ∨ latest = ""))
    ∧ (compareVersions current latest = VersionStatus.upToDate ↔
      (current ≠ "" ∧ latest ≠ "" ∧ jsTrim current = jsTrim latest))
    ∧ (compareVersions current latest = VersionStatus.outdated ↔
      (current ≠ "" ∧ latest ≠ "" ∧ jsTrim current ≠ jsTrim latest)) := by
  unfold compareVersions
  by_cases h1 : current = "" ∨ latest = ""
  · rw [if_pos h1]
    refine ⟨⟨fun _ => h1, fun _ => rfl⟩, ⟨fun h => absurd h (by decide), ?_⟩,
      ⟨fun h => absurd h (by decide), ?_⟩⟩
    · rintro ⟨hc, hl, _⟩
      rcases h1 with h | h
      · exact absurd h hc
      · exact absurd h hl
    · rintro ⟨hc, hl, _⟩
      rcases h1 with h | h
      · exact absurd h hc
      · exact absurd h hl
  · rw [if_neg h1]
    push_neg at h1
    obtain ⟨hc, hl⟩ := h1
    by_cases h2 : jsTrim current = jsTrim latest
    · rw [if_pos h2]
      exact ⟨⟨fun h => absurd h (by decide), fun h => (h.elim hc hl).elim⟩,
        ⟨fun _ => ⟨hc, hl, h2⟩, fun _ => rfl⟩,
        ⟨fun h => absurd h (by decide), fun h => absurd h2 h.2.2⟩⟩
    · rw [if_neg h2]
      exact ⟨⟨fun h => absurd h (by decide), fun h => (h.elim hc hl).elim⟩,
        ⟨fun h => absurd h (by decide), fun h => absurd h.2.2 h2⟩,
        ⟨fun _ => ⟨hc, hl, h2⟩, fun _ => rfl⟩⟩

/-- Closed instance of C1 at a concrete pair. -/
theorem compareVersions_spec_witness :
    compareVersions "1.0.0" "" = VersionStatus.unknown :=
  (compareVersions_spec "1.0.0" "").1.mpr (Or.inr rfl)

/-- C7: the installed-version resolver never propagates any candidate
failure: when every candidate probe throws or yields empty output, every
candidate is still attempted, in order, and the result is the empty string.
(The Lean embedding is a total function: the TypeScript catch swallows every
probe error, so the resolver cannot throw to its caller.) -/
theorem installedResolver_never_throws (env : ExecEnv) (command : String)
    (flags : List String) (h : ∀ f ∈ flags, probeBlank env command f = true) :
    getInstalledVersionForCommand env command flags =
      ("", flags.map fun f => Call.exec (loginCmd Shell.zsh (command ++ " " ++ f))) :=
  getInstalled_blank env command flags h

/-- Closed instance of C7: all three default probes throw. -/
theorem installedResolver_never_throws_witness :
    getInstalledVersionForCommand allFailEnv "claude" installedFlags =
      ("", installedFlags.map fun f =>
        Call.exec (loginCmd Shell.zsh ("claude" ++ " " ++ f))) :=
  installedResolver_never_throws allFailEnv "claude" installedFlags (by decide)

/-- C6: when the three successive default probes produce outputs `""`, `""`
and `"2.3.1 (build info)"`, the resolver returns `"2.3.1"` (the semantic
version extracted, trailing text discarded) and its trace is exactly those
three probe invocations, none after the third. -/
theorem installedResolver_third_probe (env : ExecEnv) (command : String)
    (h1 : runInLoginShell env (command ++ " " ++ "-v") Shell.zsh = Except.ok ("", ""))
    (h2 : runInLoginShell env (command ++ " " ++ "--version") Shell.zsh = Except.ok ("", ""))
    (h3 : runInLoginShell env (command ++ " " ++ "version") Shell.zsh =
      Except.ok ("2.3.1 (build info)", "")) :
    getInstalledVersionForCommand env command installedFlags =
      ("2.3.1", [Call.exec (loginCmd Shell.zsh (command ++ " " ++ "-v")),
                 Call.exec (loginCmd Shell.zsh (command ++ " " ++ "--version")),
                 Call.exec (loginCmd Shell.zsh (command ++ " " ++ "version"))]) := by
  have e0 : installedFlags = "-v" :: "--version" :: "version" :: [] := rfl
  rw [e0, getInstalled_cons, h1, getInstalled_cons, h2, getInstalled_cons, h3]
  rfl

/-- Closed instance of C6 at a concrete environment. -/
theorem installedResolver_third_probe_witness :
    getInstalledVersionForCommand c6Env "mytool" installedFlags =
      ("2.3.1", [Call.exec (loginCmd Shell.zsh ("mytool" ++ " " ++ "-v")),
                 Call.exec (loginCmd Shell.zsh ("mytool" ++ " " ++ "--version")),
                 Call.exec (loginCmd Shell.zsh ("mytool" ++ " " ++ "version"))]) :=
  installedResolver_third_probe c6Env "mytool" rfl rfl rfl

/-- C5 counterexample: `"1.2.3-beta.1"` is a semantic version with the
pre-release tag `beta.1`, i.e. an already-bare version string in the
claim's sense, yet the extraction step truncates it: the regex's optional
tag group consumes only one `[.-][a-zA-Z0-9]+` segment, so re-extraction
returns `"1.2.3-beta"`, not the input. -/
theorem extractStep_not_idempotent_cex :
    extractVersionStep "1.2.3-beta.1" = "1.2.3-beta" ∧
      extractVersionStep "1.2.3-beta.1" ≠ "1.2.3-beta.1" := by
  exact ⟨rfl, by decide⟩

/-- C5 (amended): the extraction step is the identity exactly on strings
matching the extraction pattern itself — `\d+\.\d+\.\d+` optionally
followed by one single `[.-]`-separated alphanumeric tag segment.  For
every such string `v`, `extractSemver(v) || v` returns `v` unchanged. -/
theorem extractStep_idempotent_on_pattern (v : String) (hb : BareVersion v) :
    extractVersionStep v = v := by
  have he : extractSemver v = some ⟨v.data⟩ := by
    unfold extractSemver
    rw [findSemver_bare v.data hb]
  unfold extractVersionStep
  rw [he]

/-- Closed instance of C5 (amended) at a single-tag bare version. -/
theorem extractStep_idempotent_on_pattern_witness :
    extractVersionStep "1.2.3-beta" = "1.2.3-beta" :=
  extractStep_idempotent_on_pattern "1.2.3-beta"
    ⟨['1'], ['2'], ['3'], ['-', 'b', 'e', 't', 'a'], by decide,
     ⟨by decide, by decide⟩, ⟨by decide, by decide⟩, ⟨by decide, by decide⟩,
     Or.inr ⟨'-', ['b', 'e', 't', 'a'], rfl, Or.inr rfl, by decide, by decide⟩⟩

/-- C10: `extractSemver` returns the leftmost-and-greedy match of
`\d+\.\d+\.\d+(?:[.-][a-zA-Z0-9]+)?`, or `null` when nothing matches:
a multi-segment pre-release tag is truncated to its first segment, the
first of several version-like substrings wins, every returned match is of
the bare-version shape and occurs at the earliest position where any
bare-version substring starts, and a `none` result means no substring of
the input has the bare-version shape. -/
theorem extractSemver_correct :
    (extractSemver "1.2.3-beta.1" = some "1.2.3-beta")
    ∧ (extractSemver "v 7.7.7 then 1.0.0" = some "7.7.7")
    ∧ (extractSemver "no digits here" = none)
    ∧ (∀ t m, extractSemver t = some m →
        BareVersionL m.data ∧
          ∃ p q, t.data = p ++ (m.data ++ q) ∧
            ∀ i u w, i < p.length → t.data.drop i = u ++ w → ¬ BareVersionL u)
    ∧ (∀ t, extractSemver t = none →
        ∀ p u q, t.data = p ++ (u ++ q) → ¬ BareVersionL u) := by
  refine ⟨rfl, rfl, rfl, ?_, ?_⟩
  · intro t m hm
    cases hf : findSemver t.data with
    | none =>
      have : extractSemver t = none := by
        unfold extractSemver
        rw [hf]
      rw [this] at hm
      exact absurd hm (by simp)
    | some l =>
      have hsome : extractSemver t = some ⟨l⟩ := by
        unfold extractSemver
        rw [hf]
      rw [hsome] at hm
      have hml : (⟨l⟩ : String) = m := by simpa using hm
      have hdata : m.data = l := by rw [← hml]
      obtain ⟨i, hlen, hmi, hnone⟩ := findSemver_found t.data l hf
      obtain ⟨hbare, rest, hdecomp⟩ := semverMatchAt_sound (t.data.drop i) l hmi
      have hplen : (t.data.take i).length = i := by
        rw [List.length_take]
        exact Nat.min_eq_left (Nat.le_of_lt hlen)
      refine ⟨hdata ▸ hbare, t.data.take i, rest, ?_, ?_⟩
      · rw [hdata, ← hdecomp, List.take_append_drop]
      · intro j u w hj hdrop hbu
        rw [hplen] at hj
        obtain ⟨mm, hmm⟩ := semverMatchAt_app_isSome u hbu w
        rw [← hdrop] at hmm
        rw [hnone j hj] at hmm
        exact absurd hmm (by simp)
  · intro t hnone p u q hdecomp hbu
    have hf : findSemver t.data = none := by
      cases hf : findSemver t.data with
      | none => rfl
      | some l =>
        have : extractSemver t = some ⟨l⟩ := by
          unfold extractSemver
          rw [hf]
        rw [this] at hnone
        exact absurd hnone (by simp)
    have hat := findSemver_none t.data hf p.length
    rw [hdecomp, List.drop_left] at hat
    obtain ⟨mm, hmm⟩ := semverMatchAt_app_isSome u hbu q
    rw [hat] at hmm
    exact absurd hmm (by simp)

/-- Closed instance of C10's soundness component. -/
theorem extractSemver_correct_witness : BareVersionL ("1.2.3" : String).data :=
  (extractSemver_correct.2.2.2.1 "x1.2.3y" "1.2.3" rfl).1

/-- C3 counterexample: the per-package resolver
`getLatestVersionForPackage` has no HTTP fallback at all.  With every shell
attempt failing (an environment whose every command throws), it performs
exactly one zsh `npm view` invocation — no curl call and no https call ever
appears in its trace, its signature does not even take the https capability
— and returns `""`, not the `"1.4.0"` the claimed fallback chain would
produce from the registry body. -/
theorem perPackage_no_http_fallback_cex :
    getLatestVersionForPackage allFailEnv "@google/gemini-cli" =
      ("", [Call.exec (loginCmd Shell.zsh "npm view @google/gemini-cli version")])
    ∧ (getLatestVersionForPackage allFailEnv "@google/gemini-cli").1 ≠ "1.4.0" := by
  exact ⟨rfl, by decide⟩

/-- C3 (amended): the fallback chain belongs to the fixed-package resolver
`getLatestVersion` (package hard-wired to `@anthropic-ai/claude-code`), not
to the per-package `getLatestVersionForPackage`.  For `getLatestVersion`:
(a) when all ten npm-view shell attempts fail or produce empty output, the
curl stage yields nothing and the https stage yields `""`, it attempts
every stage in the fixed priority order (its trace is exactly
`allLatestCalls`) and returns the empty string, every stage's exception
being caught; (b) a decisive shell stage short-circuits: the result and
trace are the shell stage's, so no curl or https call happens; (c) the
per-package resolver performs only its single zsh npm-view query and
returns `""` when it throws. -/
theorem latestResolver_fallback_chain (env : ExecEnv) (hs : HttpsEnv) :
    ((∀ sh ∈ latestShells, ∀ c ∈ latestCommands, attemptBlank env sh c = true) →
      curlVersionOpt env = none → httpsGetVersion hs = "" →
      getLatestVersion env hs = ("", allLatestCalls))
    ∧ (∀ v tr, tryNpmShells env latestShells = (some v, tr) →
        getLatestVersion env hs = (v, tr))
    ∧ (∀ pkg err,
        env (loginCmd Shell.zsh ("npm view " ++ pkg ++ " version")) = Except.error err →
        getLatestVersionForPackage env pkg =
          ("", [Call.exec (loginCmd Shell.zsh ("npm view " ++ pkg ++ " version"))])) := by
  refine ⟨?_, ?_, ?_⟩
  · intro hsh hcurl hhttps
    have h10 := tryNpmShells_blank env latestShells hsh
    unfold getLatestVersion
    rw [h10, hcurl, hhttps]
    rfl
  · intro v tr h
    exact tryNpmShells_some env hs v tr h
  · intro pkg err h
    unfold getLatestVersionForPackage runInLoginShell
    rw [h]

/-- Closed instance of C3 (amended), part (a): everything fails. -/
theorem latestResolver_fallback_chain_witness :
    getLatestVersion allFailEnv none = ("", allLatestCalls) :=
  (latestResolver_fallback_chain allFailEnv none).1 (by decide) rfl rfl

/-- C4: when every npm-view shell attempt yields no result and the curl
query of the registry's `latest` endpoint returns the JSON body
`{"version":"1.4.0"}` (any stderr), `getLatestVersion` returns `"1.4.0"`. -/
theorem latestResolver_curl_json (env : ExecEnv) (hs : HttpsEnv) (errout : String)
    (hsh : ∀ sh ∈ latestShells, ∀ c ∈ latestCommands, attemptBlank env sh c = true)
    (hcurl : runInLoginShell env curlLatestCmd Shell.bash =
      Except.ok (registryBody140, errout)) :
    (getLatestVersion env hs).1 = "1.4.0" := by
  have h10 := tryNpmShells_blank env latestShells hsh
  have hc : curlVersionOpt env = some "1.4.0" := by
    unfold curlVersionOpt
    rw [hcurl]
    rfl
  unfold getLatestVersion
  rw [h10, hc]

/-- Closed instance of C4. -/
theorem latestResolver_curl_json_witness : (getLatestVersion c4Env none).1 = "1.4.0" :=
  latestResolver_curl_json c4Env none "" (by decide) (by decide)

/-- C8: `loadSettings` merges the persisted JSON object over the hard-coded
defaults — the partial blob with only `packageManager: "yarn"` yields a full
settings record with every other field at its default — and any storage
error or `JSON.parse` failure falls back to exactly `DEFAULT_SETTINGS`
(the function is total: it never throws). -/
theorem loadSettings_merge_defaults :
    (loadSettings (Except.ok (some "\x7b\"packageManager\":\"yarn\"\x7d")) =
      ⟨Json.str "claude", Json.str "yarn", Json.bool false⟩)
    ∧ (∀ err, loadSettings (Except.error err) = DEFAULT_SETTINGS)
    ∧ (∀ s, jsonParse s = none → loadSettings (Except.ok (some s)) = DEFAULT_SETTINGS) := by
  refine ⟨rfl, fun err => rfl, ?_⟩
  intro s hp
  have hdef : loadSettings (Except.ok (some s)) =
      (if s = "" then DEFAULT_SETTINGS
       else
         match jsonParse s with
         | none => DEFAULT_SETTINGS
         | some parsed => spreadMerge DEFAULT_SETTINGS parsed) := rfl
  rw [hdef]
  by_cases hempty : s = ""
  · rw [if_pos hempty]
  · rw [if_neg hempty, hp]

/-- Closed instance of C8's parse-failure fallback. -/
theorem loadSettings_merge_defaults_witness :
    loadSettings (Except.ok (some "oops")) = DEFAULT_SETTINGS :=
  loadSettings_merge_defaults.2.2 "oops" rfl

/-- C2: the bulk update evaluated at the spec's scenario — `claude` and
`qwen` outdated, `gemini` up to date, the `claude update` command throwing
while the qwen global install succeeds.  Exactly one update command runs per
outdated tool and none for `gemini` (that part of the claim holds), but
because `updateClaude` catches its error internally, `Promise.allSettled`
sees two fulfilled results: the aggregate toast says `Updated 2 tools` and
no aggregate-failure toast appears, where the claim requires a tally of
1 success and 1 failure.  The underlying failure surfaces only as the
per-tool `Update failed` toast. -/
theorem updateAll_swallows_failures :
    (updateAllOutdatedTools c2Env TOOLS c2States).calls =
      [Call.exec (loginCmd Shell.zsh "claude update"),
       Call.exec (loginCmd Shell.zsh "npm i -g @qwen-code/qwen-code")]
    ∧ (updateAllOutdatedTools c2Env TOOLS c2States).settled =
        [Except.ok ToolId.claude, Except.ok ToolId.qwen]
    ∧ (updateAllOutdatedTools c2Env TOOLS c2States).toasts =
        [updatingToast 2,
         ⟨ToastStyle.animated, "Running claude update...", none⟩,
         ⟨ToastStyle.failure, "Update failed", some "claude update failed"⟩,
         ⟨ToastStyle.animated, "Installing @qwen-code/qwen-code globally...", none⟩,
         ⟨ToastStyle.success, "Global install completed", some "updated 1 package"⟩,
         updatedToast 2] := by
  exact ⟨rfl, rfl, rfl⟩

/-- C9: the per-tool update operations catch every error internally, so in
`updateAllOutdatedTools` — over any environment and any states — every
`Promise.allSettled` result is fulfilled, the rejected count is 0, the
fulfilled count equals the number of outdated tools, and (when any tool is
outdated) the toast list ends with the `Updated N tools` success toast for
N = the full outdated count, never an aggregate-failure toast. -/
theorem updateAll_never_rejects (env : ExecEnv) (tools : List ToolConfig)
    (states : ToolId → Option ToolState) :
    (∀ r ∈ (updateAllOutdatedTools env tools states).settled, ∃ i, r = Except.ok i)
    ∧ ((updateAllOutdatedTools env tools states).settled.filter isRejected).length = 0
    ∧ ((updateAllOutdatedTools env tools states).settled.filterMap fulfilledId).length =
        (outdatedToolsOf tools states).length
    ∧ (outdatedToolsOf tools states ≠ [] →
        ∃ mid, (updateAllOutdatedTools env tools states).toasts =
          updatingToast (outdatedToolsOf tools states).length ::
            (mid ++ [updatedToast (outdatedToolsOf tools states).length])) := by
  by_cases hnil : outdatedToolsOf tools states = []
  · have hres : updateAllOutdatedTools env tools states =
        { calls := [], toasts := [allUpToDateToast], settled := [] } := by
      unfold updateAllOutdatedTools
      rw [hnil]
      rfl
    rw [hres, hnil]
    exact ⟨by simp, rfl, rfl, fun h => absurd rfl h⟩
  · have hlen0 : ¬ (outdatedToolsOf tools states).length = 0 := by
      intro h0
      exact hnil (List.length_eq_zero.mp h0)
    have hpos : 0 < (outdatedToolsOf tools states).length := Nat.pos_of_ne_zero hlen0
    have hset : (updateAllOutdatedTools env tools states).settled =
        (outdatedToolsOf tools states).map
          (fun t => (Except.ok t.id : Except String ToolId)) := by
      simp only [updateAllOutdatedTools]
      rw [if_neg hlen0]
      exact settled_map_ok env (outdatedToolsOf tools states)
    have htoast : (updateAllOutdatedTools env tools states).toasts =
        updatingToast (outdatedToolsOf tools states).length ::
          (((((outdatedToolsOf tools states).map (updateToolTask env)).map
              fun r => r.2.1).flatten)
            ++ [updatedToast (outdatedToolsOf tools states).length]) := by
      have hF : ∀ l : List ToolConfig,
          List.filterMap (fulfilledId ∘ (fun r => r.2.2) ∘ updateToolTask env) l =
            l.map fun t => t.id := by
        intro l
        induction l with
        | nil => rfl
        | cons t ts ih =>
          rw [List.filterMap_cons]
          have hc : (fulfilledId ∘ (fun r => r.2.2) ∘ updateToolTask env) t = some t.id := by
            show fulfilledId (updateToolTask env t).2.2 = some t.id
            rw [updateToolTask_ok]
            rfl
          rw [hc, ih]
          rfl
      have hR : ∀ l : List ToolConfig,
          List.filter isRejected (List.map ((fun r => r.2.2) ∘ updateToolTask env) l) = [] := by
        intro l
        induction l with
        | nil => rfl
        | cons t ts ih =>
          rw [List.map_cons, List.filter_cons]
          have hc : isRejected (((fun r => r.2.2) ∘ updateToolTask env) t) = false := by
            show isRejected (updateToolTask env t).2.2 = false
            rw [updateToolTask_ok]
            rfl
          rw [hc, ih]
          simp
      simp only [updateAllOutdatedTools]
      rw [if_neg hlen0]
      dsimp only
      rw [settled_map_ok env (outdatedToolsOf tools states),
        filterMap_fulfilled (outdatedToolsOf tools states),
        filter_rejected_nil (outdatedToolsOf tools states), List.length_map]
      rw [if_pos hpos]
      rw [show (([] : List (Except String ToolId)).length) = 0 from rfl]
      rw [if_neg (by omega : ¬ (0 : Nat) > 0), List.append_nil]
    refine ⟨?_, ?_, ?_, fun _ => ⟨_, htoast⟩⟩
    · intro r hr
      rw [hset] at hr
      obtain ⟨t, _, ht⟩ := List.mem_map.mp hr
      exact ⟨t.id, ht.symm⟩
    · rw [hset, filter_rejected_nil (outdatedToolsOf tools states)]
      rfl
    · rw [hset, filterMap_fulfilled (outdatedToolsOf tools states), List.length_map]

/-- Closed instance of C9's toast component: all tools outdated, every
update command throwing, the toast list still ends in `Updated 3 tools`. -/
theorem updateAll_never_rejects_witness :
    ∃ mid, (updateAllOutdatedTools c9Env TOOLS c9States).toasts =
      updatingToast (outdatedToolsOf TOOLS c9States).length ::
        (mid ++ [updatedToast (outdatedToolsOf TOOLS c9States).length]) :=
  (updateAll_never_rejects c9Env TOOLS c9States).2.2.2 (by decide)
